import Mathlib

/-!
Shallow embedding of the hybrid product-recommendation engine
(`app/recommendation/services.py` and `app/recommendation/utils.py`).

Conventions of the embedding:
* The relational store (SQLAlchemy tables) is a `Store` record of row lists in
  table order; SQL `filter`/`first`/`limit` become `List.filter`/`find?`/`take`.
* Timestamps are integers counted in days; "now" is the field `nowDay`, so the
  trailing-30-days window of the source is `nowDay - 30 ≤ timestamp`.
* `float` similarity scores are embedded as exact rationals, carried as
  unnormalised numerator/denominator pairs `Q` with positive denominators
  (exact rational arithmetic; normalisation is irrelevant because the code
  consumes scores only through order and zero tests).  Cosine similarities are
  never materialised: only their order matters, and the comparison
  `cos a < cos b` is carried out exactly by comparing squared cross-products
  (`cosGt`), which agrees with the real-number comparison the numeric
  libraries approximate.
* Sorts of the source whose tie order is implementation defined
  (`pandas.sort_values`, SQL `ORDER BY`, `numpy.argsort`) are embedded as the
  stable insertion sort `sortS`; every concrete input used by a theorem below
  is chosen so that no consequential tie occurs, making the embedded value
  independent of that choice.
* Exceptions become `Except HErr`; `raise HTTPException(404/500)` is
  `.error .http404` / `.error .http500`.  `asyncio.gather` propagates the
  exception of a failing task, embedded by monadic sequencing of the five
  generator results.
* The `while` loop of `enforce_diversity` is embedded with an explicit fuel
  parameter (`none` = the loop has not terminated within the given fuel); the
  fuel is threaded through `get_hybrid_recommendations` untouched by every
  other (manifestly terminating) code path.
* The SVD factorisation of `get_svd_recommendations` calls
  `scipy.sparse.linalg.svds`, an external numeric routine whose output is
  irrational in general; it is embedded as an explicit kernel parameter
  `SvdKernel` receiving exactly the data the source hands to `svds`.  The
  source-level guards around it (empty frame, unknown user, `k =
  min(10, min(shape) - 1)` and the `svds` precondition `1 ≤ k`) are embedded
  faithfully, and every claim below is either quantified over the kernel or
  evaluated at inputs that never reach it.
-/

/-- Exact rational arithmetic for similarity scores, as unnormalised
numerator/denominator pairs.  (Core `Rat` normalises through `Nat.gcd`, whose
well-founded recursion does not reduce definitionally; the engine consumes
scores only through order and zero tests, for which normalisation is
irrelevant — every constructor below keeps the denominator positive.) -/
structure Q where
  num : Int
  den : Int
  deriving Repr, DecidableEq

/-- Embed an integer. -/
def Q.ofInt (n : Int) : Q := ⟨n, 1⟩

/-- Exact addition. -/
def Q.add (a b : Q) : Q := ⟨a.num * b.den + b.num * a.den, a.den * b.den⟩

/-- Exact multiplication. -/
def Q.mul (a b : Q) : Q := ⟨a.num * b.num, a.den * b.den⟩

/-- Reciprocal, keeping the denominator positive; `0⁻¹ = 0` (never consumed —
the source divides only by non-zero counts). -/
def Q.inv (a : Q) : Q :=
  if a.num < 0 then ⟨-a.den, -a.num⟩ else if a.num == 0 then ⟨0, 1⟩ else ⟨a.den, a.num⟩

/-- Exact division. -/
def Q.div (a b : Q) : Q := a.mul b.inv

/-- Zero test. -/
def Q.isZero (a : Q) : Bool := a.num == 0

/-- Exact order comparison (denominators positive). -/
def Q.blt (a b : Q) : Bool := decide (a.num * b.den < b.num * a.den)

/-- Sum of a list of scores. -/
def Q.sumL (l : List Q) : Q := l.foldl Q.add (Q.ofInt 0)

/-- Row of the `users` table. -/
structure UserR where
  user_id : Int
  name : String
  location : String
  device : String
  deriving Repr, DecidableEq

/-- Row of the `products` table. -/
structure ProductR where
  product_id : Int
  name : String
  category : String
  tags : Option String
  rating : Q
  meta : Option String
  deriving Repr, DecidableEq

/-- Row of the `browsing_history` table. -/
structure BrowsingR where
  id : Int
  user_id : Int
  product_id : Int
  timestamp : Int
  deriving Repr, DecidableEq

/-- Row of the `purchase_history` table. -/
structure PurchaseR where
  id : Int
  user_id : Int
  product_id : Int
  quantity : Int
  timestamp : Int
  deriving Repr, DecidableEq

/-- Row of the `user_interactions` table (only the columns the engine reads). -/
structure InteractionR where
  id : Int
  user_id : Int
  product_id : Int
  interaction_type : String
  deriving Repr, DecidableEq

/-- Row of the `contextual_signals` table. -/
structure SignalR where
  id : Int
  category : String
  peak_days : String
  season : String
  time_of_day : Option String
  device_type : Option String
  deriving Repr, DecidableEq

/-- A read snapshot of the interaction store together with the Redis cache and
the current clock (day count plus the calendar fields `get_current_season` and
the weekday lookups read from `datetime.utcnow()`). -/
structure Store where
  users : List UserR
  products : List ProductR
  browsing : List BrowsingR
  purchases : List PurchaseR
  interactions : List InteractionR
  signals : List SignalR
  cache : List (Int × List Int)
  nowDay : Int
  month : Nat
  day : Nat
  weekday : String
  deriving Repr, DecidableEq

/-- Outcomes of the engine's raised `HTTPException`s. -/
inductive HErr where
  | http404
  | http500
  deriving Repr, DecidableEq

deriving instance DecidableEq for Except

/-- Keep-first deduplication; embeds Python `set` construction (downstream code
of the source consumes the result only through membership, so the retained
order is immaterial). -/
def dedupF : List Int → List Int
  | [] => []
  | x :: xs => x :: (dedupF xs).filter (fun y => y != x)

/-- Stable insertion sort for a strict precedence test `lt` (`lt a b` = `a` must
come strictly before `b`); ties keep their input order.  Embeds the sorts of
the source whose tie order is implementation defined. -/
def sortS (lt : α → α → Bool) (l : List α) : List α :=
  List.insertionSort (fun a b => lt b a = false) l

/-- Redis `GET recommendations:{user_id}` over the cache association list. -/
def lookupCache (c : List (Int × List Int)) (u : Int) : Option (List Int) :=
  match c.find? (fun kv => kv.1 == u) with
  | some kv => some kv.2
  | none => none

/-- Redis `SETEX recommendations:{user_id}` (overwrites the key). -/
def cacheSet (c : List (Int × List Int)) (u : Int) (v : List Int) : List (Int × List Int) :=
  (u, v) :: c.filter (fun kv => kv.1 != u)

/-- Embeds `get_interacted_product_ids`: union of purchase, browsing and generic
interaction product ids of the user (empty for an anonymous caller); the source
builds a Python set, consumed only through membership tests. -/
def get_interacted_product_ids (st : Store) (uid : Option Int) : List Int :=
  match uid with
  | none => []
  | some u =>
    ((st.purchases.filter (fun p => p.user_id == u)).map (fun p => p.product_id))
      ++ ((st.browsing.filter (fun b => b.user_id == u)).map (fun b => b.product_id))
      ++ ((st.interactions.filter (fun i => i.user_id == u)).map (fun i => i.product_id))

/-- Embeds `get_trending_products`: purchases of the trailing 30 days, minus the
caller's interacted products, grouped by product (group keys enumerated in
ascending product id, the deterministic reading of the SQL `GROUP BY`), ordered
by purchase count descending (stable, so ties stay in ascending id order),
first `limit`. -/
def get_trending_products (st : Store) (uid : Option Int) (limit : Nat) : List Int :=
  let inter := get_interacted_product_ids st uid
  let eligible := st.purchases.filter
    (fun p => decide (st.nowDay - 30 ≤ p.timestamp) && !(inter.contains p.product_id))
  let counts : Int → Nat := fun x => eligible.countP (fun p => p.product_id == x)
  let cand := sortS (fun a b => decide (a < b)) (dedupF (eligible.map (fun p => p.product_id)))
  (sortS (fun a b => decide (counts b < counts a)) cand).take limit

/-- Embeds `get_current_season` (`utils.py`): season or special event from the current
month, day and weekday. -/
def get_current_season (st : Store) : String :=
  let month := st.month
  let day := st.day
  if (month == 12 && 24 ≤ day) || (month == 12 && day ≤ 26) then "Christmas"
  else if (month == 11 && 22 ≤ day && day ≤ 28) && st.weekday == "Thursday" then "Thanksgiving"
  else if month == 10 && day == 31 then "Halloween"
  else if month == 2 && day == 14 then "Valentine's Day"
  else if (month == 12 && 21 ≤ day) || (month == 1 || month == 2) || (month == 3 && day < 20) then
    "Winter"
  else if (month == 3 && 20 ≤ day) || (month == 4 || month == 5) || (month == 6 && day < 21) then
    "Spring"
  else if (month == 6 && 21 ≤ day) || (month == 7 || month == 8) || (month == 9 && day < 22) then
    "Summer"
  else if (month == 9 && 22 ≤ day) || (month == 10 || month == 11) || (month == 12 && day < 21) then
    "Fall"
  else "Unknown"

/-- Mean rating of the product rows carrying a given id: the cell of the pandas
`pivot_table(index='product_id', values='rating')` of
`get_content_based_recommendations` (the default `aggfunc` is the mean; with a
primary-key-unique table this is just the product's rating). -/
def ratingOfP (st : Store) (x : Int) : Q :=
  let rows := st.products.filter (fun p => p.product_id == x)
  if rows.isEmpty then Q.ofInt 0
  else (Q.sumL (rows.map (fun p => p.rating))).div (Q.ofInt rows.length)

/-- Cosine similarity of the one-dimensional rating rows `[ri]`, `[rj]` of the
content pivot table: `0` when either vector is zero (sklearn leaves zero rows
unnormalised), otherwise the product of the signs — computed exactly. -/
def ratingSim (ri rj : Q) : Q :=
  if ri.isZero || rj.isZero then Q.ofInt 0
  else if ((Q.ofInt 0).blt ri) == ((Q.ofInt 0).blt rj) then Q.ofInt 1 else Q.ofInt (-1)

/-- Embeds `get_content_based_recommendations`.  The source also assembles a
`features` column (category + tag text) but never uses it: the similarity
matrix is computed from the `rating` pivot alone, which this embedding renders
exactly (`ratingSim`).  The dead `features` column is omitted. -/
def get_content_based_recommendations (st : Store) (uid : Option Int) (limit : Nat) :
    Except HErr (List Int) :=
  let viewed : List Int :=
    match uid with
    | none => []
    | some u => (st.browsing.filter (fun b => b.user_id == u)).map (fun b => b.product_id)
  if viewed.isEmpty then .ok (get_trending_products st uid limit)
  else if st.products.isEmpty then .error .http500
  else
    let prodIdx := sortS (fun a b => decide (a < b)) (dedupF (st.products.map (fun p => p.product_id)))
    let valid := viewed.filter (fun v => prodIdx.contains v)
    if valid.isEmpty then .ok (get_trending_products st uid limit)
    else
      let meanSim : Int → Q := fun j =>
        (Q.sumL (valid.map (fun v => ratingSim (ratingOfP st v) (ratingOfP st j)))).div
          (Q.ofInt valid.length)
      let ranked := sortS (fun a b => (meanSim b).blt (meanSim a)) prodIdx
      .ok (ranked.take limit)

/-- Cell of the user×product purchase pivot table
(`pivot_table(index='user_id', columns='product_id', values='quantity',
fill_value=0)`, default `aggfunc` mean). -/
def qcell (rows : List PurchaseR) (u x : Int) : Q :=
  let sel := rows.filter (fun r => r.user_id == u && r.product_id == x)
  if sel.isEmpty then Q.ofInt 0
  else (Q.sumL (sel.map (fun r => Q.ofInt r.quantity))).div (Q.ofInt sel.length)

/-- Dot product of two users' pivot rows over the product index. -/
def dotRow (rows : List PurchaseR) (prodIdx : List Int) (u v : Int) : Q :=
  Q.sumL (prodIdx.map (fun x => (qcell rows u x).mul (qcell rows v x)))

/-- Sign of a rational. -/
def sgnQ (x : Q) : Int :=
  if x.blt (Q.ofInt 0) then -1 else if x.isZero then 0 else 1

/-- Exact test `cos(t,a) > cos(t,b)` for cosine similarity against a fixed
target row `t`, given the dot products `da = t·a`, `db = t·b` and the squared
norms `nt = ‖t‖²`, `na = ‖a‖²`, `nb = ‖b‖²`.  A zero norm makes the similarity
`0` (sklearn's convention); otherwise `cos(t,a) = da / (√nt·√na)` and the
comparison is decided by sign and by the cross-multiplied squares. -/
def cosGt (nt da na db nb : Q) : Bool :=
  let sa : Int := if nt.isZero || na.isZero then 0 else sgnQ da
  let sb : Int := if nt.isZero || nb.isZero then 0 else sgnQ db
  if sa != sb then decide (sb < sa)
  else if sa == 0 then false
  else if sa == 1 then ((db.mul db).mul na).blt ((da.mul da).mul nb)
  else ((da.mul da).mul nb).blt ((db.mul db).mul na)

/-- Embeds `get_user_based_recommendations`: cosine similarity between the target
user's purchase-quantity row and every user's row, the `limit` most similar
users after dropping the head of the descending ranking (the source assumes the
head is the target itself), then the similar users' purchases ranked by
frequency (`value_counts`). -/
def get_user_based_recommendations (st : Store) (uid : Option Int) (limit : Nat) :
    Except HErr (List Int) :=
  let myPurch : List PurchaseR :=
    match uid with
    | none => []
    | some u => st.purchases.filter (fun p => p.user_id == u)
  if myPurch.isEmpty then .ok (get_trending_products st uid limit)
  else
    match uid with
    | none => .ok (get_trending_products st uid limit)
    | some u =>
      let rows := st.purchases
      let userIdx := sortS (fun a b => decide (a < b)) (dedupF (rows.map (fun r => r.user_id)))
      let prodIdx := sortS (fun a b => decide (a < b)) (dedupF (rows.map (fun r => r.product_id)))
      let nt := dotRow rows prodIdx u u
      let ranked := sortS
        (fun a b => cosGt nt (dotRow rows prodIdx u a) (dotRow rows prodIdx a a)
                            (dotRow rows prodIdx u b) (dotRow rows prodIdx b b)) userIdx
      let similar_users := (ranked.drop 1).take limit
      let simPurch := rows.filter (fun r => similar_users.contains r.user_id)
      let pids := simPurch.map (fun r => r.product_id)
      let recommended := sortS (fun a b => decide (pids.count b < pids.count a)) (dedupF pids)
      .ok (recommended.take limit)

/-- Substring test on serialized metadata, embedding the SQL
`Product.meta.contains(...)` (`LIKE %pat%`). -/
def strContains (s pat : String) : Bool :=
  1 < (s.splitOn pat).length

/-- Embeds `get_personalized_recommendations`: products whose metadata blob contains
the textual fragment naming the user's device type.  When the user row does not
resolve, the source dereferences `user.device` on `None` and the resulting
exception surfaces as an HTTP 500. -/
def get_personalized_recommendations (st : Store) (uid : Option Int) (limit : Nat) :
    Except HErr (List Int) :=
  let usr : Option UserR :=
    match uid with
    | none => none
    | some u => st.users.find? (fun x => x.user_id == u)
  match usr with
  | none => .error .http500
  | some user =>
    let pat := "\"device_type\": \"" ++ user.device ++ "\""
    let personalized := (st.products.filter (fun p =>
      match p.meta with
      | some m => strContains m pat
      | none => false)).take (limit * 2)
    if personalized.isEmpty then .ok (get_trending_products st uid limit)
    else .ok ((personalized.take limit).map (fun p => p.product_id))

/-- Embeds `get_contextual_recommendations`: contextual signals whose peak days
contain the current weekday or whose season matches the current season select
their categories; products of those categories, first `limit`. -/
def get_contextual_recommendations (st : Store) (uid : Option Int) (limit : Nat) :
    Except HErr (List Int) :=
  let relevant := st.signals.filter (fun s =>
    (s.peak_days.splitOn ",").contains st.weekday || s.season == get_current_season st)
  if relevant.isEmpty then .ok (get_trending_products st uid limit)
  else
    let relevant_categories := relevant.map (fun s => s.category)
    let contextual := (st.products.filter (fun p => relevant_categories.contains p.category)).take limit
    .ok (contextual.map (fun p => p.product_id))

/-- The uninterpreted SVD factorisation step: receives the sparse-matrix
entries (user index, product index, quantity), the shape, the rank
`k = min(10, min(shape) - 1)` and the target user's row index, and returns the
reconstructed predicted-score row (after `nan_to_num`).  The source obtains it
from `scipy.sparse.linalg.svds`; its numeric output is irrational in general,
so the embedding abstracts it — every claim below is either independent of the
kernel or evaluated where this step is never reached. -/
def SvdKernel : Type :=
  List (Nat × Nat × Q) → Nat → Nat → Nat → Nat → List Q

/-- Embeds `get_svd_recommendations`: guards and index bookkeeping from the source;
`svds` demands `1 ≤ k`, so `k = min(10, min(#users, #products) - 1) < 1` raises
(HTTP 500).  `unique()` preserves first appearance; `np.argsort(-scores)` is
the descending order of the score row. -/
def get_svd_recommendations (kern : SvdKernel) (st : Store) (uid : Option Int) (limit : Nat) :
    Except HErr (List Int) :=
  let rows := st.purchases
  let dfUsers := rows.map (fun r => r.user_id)
  let missing :=
    match uid with
    | none => false
    | some u => !(dfUsers.contains u)
  if rows.isEmpty || (uid.isSome && missing) then .ok (get_trending_products st uid limit)
  else
    let uniqueUsers := dedupF dfUsers
    let uniqueProducts := dedupF (rows.map (fun r => r.product_id))
    let kk : Int := min 10 ((min uniqueUsers.length uniqueProducts.length : Int) - 1)
    if kk < 1 then .error .http500
    else
      match uid with
      | none => .ok (get_trending_products st uid limit)
      | some u =>
        if !(uniqueUsers.contains u) then .ok (get_trending_products st uid limit)
        else
          let uidx := uniqueUsers.indexOf u
          let entries := rows.map (fun r =>
            (uniqueUsers.indexOf r.user_id, uniqueProducts.indexOf r.product_id,
              Q.ofInt r.quantity))
          let scores := kern entries uniqueUsers.length uniqueProducts.length kk.toNat uidx
          let recommended_idx :=
            (sortS (fun i j => (scores.getD j (Q.ofInt 0)).blt (scores.getD i (Q.ofInt 0)))
              (List.range scores.length)).take limit
          let recommended_product_ids := recommended_idx.filterMap (fun i => uniqueProducts.get? i)
          if recommended_product_ids.isEmpty then .ok (get_trending_products st uid limit)
          else .ok recommended_product_ids

/-- One insertion into the category map of `enforce_diversity` (a Python dict
preserving key insertion order; each product id is appended at the end of its
category's bucket). -/
def catInsert (m : List (String × List Int)) (c : String) (x : Int) :
    List (String × List Int) :=
  match m with
  | [] => [(c, [x])]
  | (c0, xs) :: rest => if c0 == c then (c0, xs ++ [x]) :: rest else (c0, xs) :: catInsert rest c x

/-- The `category_map` of `enforce_diversity`, built by one pass over the
queried product rows. -/
def buildCategoryMap (details : List ProductR) : List (String × List Int) :=
  details.foldl (fun m p => catInsert m p.category p.product_id) []

/-- One iteration over `category_map.items()` of the `while` loop of
`enforce_diversity`: pop the head of every non-empty bucket in order, breaking
as soon as the accumulator reaches `limit`. -/
def enforce_pass : List (String × List Int) → List Int → Nat →
    List (String × List Int) × List Int
  | [], acc, _ => ([], acc)
  | (c, ps) :: rest, acc, limit =>
    let step : List Int × List Int :=
      match ps with
      | [] => ([], acc)
      | h :: t => (t, acc ++ [h])
    let ps2 := step.1
    let acc2 := step.2
    if limit ≤ acc2.length then ((c, ps2) :: rest, acc2)
    else
      let r := enforce_pass rest acc2 limit
      ((c, ps2) :: r.1, r.2)

/-- The `while len(final_recommendations) < limit` loop of `enforce_diversity`,
with explicit fuel counting loop iterations; `none` means the loop has not
terminated within `fuel` iterations (the source loop has no other exit). -/
def diversityLoop (limit : Nat) : Nat → List (String × List Int) → List Int → Option (List Int)
  | 0, _, _ => none
  | fuel + 1, groups, acc =>
    if limit ≤ acc.length then some acc
    else
      let s := enforce_pass groups acc limit
      diversityLoop limit fuel s.1 s.2

/-- Embeds `enforce_diversity`: query the product rows of the recommended ids, group
them by category, then round-robin one id per category until `limit` items are
selected (or loop forever when the buckets are exhausted first). -/
def enforce_diversity (st : Store) (recommendations : List Int) (limit : Nat) (fuel : Nat) :
    Option (List Int) :=
  let product_details := st.products.filter (fun p => recommendations.contains p.product_id)
  diversityLoop limit fuel (buildCategoryMap product_details) []

/-- Embeds `get_hybrid_recommendations`: anonymous callers go straight to trending;
otherwise cache lookup (a non-empty cached list is returned as is), user
existence check (404), cold-start short-circuit to trending, the five
generators joined as `asyncio.gather` (a failing generator's exception
propagates), set-union merge, trending top-up when short, diversity
enforcement, cache write-through.  Returns the result paired with the cache
contents after the call; the outer `Option` is the diversity-loop fuel. -/
def get_hybrid_recommendations (kern : SvdKernel) (st : Store) (uid : Option Int)
    (limit : Nat) (fuel : Nat) :
    Option (Except HErr (List Int × List (Int × List Int))) :=
  match uid with
  | none => some (.ok (get_trending_products st none limit, st.cache))
  | some u =>
    match lookupCache st.cache u with
    | some (h :: t) => some (.ok (h :: t, st.cache))
    | _ =>
      if (st.users.find? (fun x => x.user_id == u)).isNone then some (.error .http404)
      else if !(st.browsing.any (fun b => b.user_id == u))
          && !(st.purchases.any (fun p => p.user_id == u)) then
        some (.ok (get_trending_products st (some u) limit, st.cache))
      else
        let gathered : Except HErr (List Int × List Int × List Int × List Int × List Int) := do
          let collaborative ← get_user_based_recommendations st (some u) limit
          let content_based ← get_content_based_recommendations st (some u) limit
          let personalized ← get_personalized_recommendations st (some u) limit
          let contextual ← get_contextual_recommendations st (some u) limit
          let svd ← get_svd_recommendations kern st (some u) limit
          pure (collaborative, content_based, personalized, contextual, svd)
        match gathered with
        | .error e => some (.error e)
        | .ok (collaborative, content_based, personalized, contextual, svd) =>
          let combined := dedupF (collaborative ++ content_based ++ personalized ++ contextual ++ svd)
          let pool :=
            if combined.length < limit then combined ++ get_trending_products st (some u) limit
            else combined
          match enforce_diversity st pool limit fuel with
          | none => none
          | some final => some (.ok (final, cacheSet st.cache u final))

/-- Python truthiness of the optional user id in `explain_recommendation`
(`if user_id:` — `None` and `0` are both falsy). -/
def uidTruthy : Option Int → Bool
  | none => false
  | some u => u != 0

/-- The personal explanation fragments of `explain_recommendation` (purchase
overlap, similar users, browsing), accumulated in the source's priority order;
skipped entirely when the optional user id is falsy (`None` or `0`).  The
similar-users fragment resolves each overlapping user's name with
`.first()[0]`, which raises (HTTP 500) when a purchase row references a missing
user. -/
def explainPersonalParts (st : Store) (uid : Option Int) (product_id : Int) :
    Except HErr (List String) :=
  match uid with
  | some u =>
    if uidTruthy uid then
      let purchased := (st.purchases.filter (fun p => p.user_id == u)).map
        (fun p => p.product_id)
      let part1 :=
        if purchased.contains product_id then
          ["Recommended because you have shown interest in similar products."]
        else []
      let similar_users := dedupF ((st.purchases.filter
        (fun p => purchased.contains p.product_id)).map (fun p => p.user_id))
      let similar_user_ids := similar_users.filter (fun v => v != u)
      let similar_users_purchased := dedupF ((st.purchases.filter
        (fun p => similar_user_ids.contains p.user_id && p.product_id == product_id)).map
        (fun p => p.user_id))
      let browsed := (st.browsing.filter (fun b => b.user_id == u)).map
        (fun b => b.product_id)
      let part3 :=
        if browsed.contains product_id then
          ["Recommended because you have viewed similar products."]
        else []
      if similar_users_purchased.isEmpty then .ok (part1 ++ part3)
      else
        match similar_users_purchased.mapM (fun v =>
            match st.users.find? (fun x => x.user_id == v) with
            | some x => some x.name
            | none => none) with
        | none => .error .http500
        | some names =>
          .ok (part1
            ++ ["Recommended because users similar to you ("
                  ++ String.intercalate ", " names ++ ") purchased this."]
            ++ part3)
    else .ok []
  | none => .ok []

/-- The contextual fragment of `explain_recommendation`: present when a
contextual signal matches the current weekday or season and the product's
category is among the matching rules' categories. -/
def explainContextParts (st : Store) (category : String) : List String :=
  let relevant := st.signals.filter (fun s =>
    (s.peak_days.splitOn ",").contains st.weekday || s.season == get_current_season st)
  if !relevant.isEmpty && (relevant.map (fun s => s.category)).contains category then
    ["Recommended based on current trends: " ++ st.weekday ++ " and "
      ++ get_current_season st ++ "."]
  else []

/-- The user row consulted by `explain_recommendation`: looked up only when the
optional user id is truthy (`None` and `0` are falsy). -/
def explainUserLookup (st : Store) (uid : Option Int) : Option UserR :=
  if uidTruthy uid then
    match uid with
    | none => none
    | some u => st.users.find? (fun x => x.user_id == u)
  else none

/-- Embeds `explain_recommendation` (`utils.py`): `.ok none` is the not-found outcome
(`None` in the source), `.error .http500` a raised exception.  Fragments are
accumulated in priority order and joined with spaces, with a generic trending
sentence as fallback when none matched. -/
def explain_recommendation (st : Store) (uid : Option Int) (product_id : Int) :
    Except HErr (Option String) :=
  let usr : Option UserR := explainUserLookup st uid
  let prod := st.products.find? (fun p => p.product_id == product_id)
  match prod with
  | none => .ok none
  | some product =>
    if uidTruthy uid && usr.isNone then .ok none
    else
      match explainPersonalParts st uid product_id with
      | .error e => .error e
      | .ok personalParts =>
        let parts := personalParts ++ explainContextParts st product.category
        let explanation_parts :=
          if parts.isEmpty then ["Recommended based on trending and popular products."]
          else parts
        .ok (some (String.intercalate " " explanation_parts))

/-- Kernel used at concrete inputs whose execution never reaches the SVD
factorisation (a guard or an error fires first); its value is irrelevant
there. -/
def svdZero : SvdKernel := fun _ _ _ _ _ => []

/-- Modelled from the spec (refinement companion of `get_trending_products`):
TrendingFallback counts purchase events of the trailing 30 days grouped by
product, orders descending by count with ties broken by ascending product id,
excludes the caller's interacted products, and returns the first `limit`. -/
def trendingFallbackSpec (st : Store) (uid : Option Int) (limit : Nat) : List Int :=
  let window := st.purchases.filter (fun p => decide (st.nowDay - 30 ≤ p.timestamp))
  let cnt : Int → Nat := fun x => window.countP (fun p => p.product_id == x)
  let inter := get_interacted_product_ids st uid
  let cands := (dedupF (window.map (fun p => p.product_id))).filter
    (fun x => !(inter.contains x))
  (sortS (fun a b => decide (cnt b < cnt a) || ((cnt a == cnt b) && decide (a < b))) cands).take
    limit

/-- Trailing-30-day purchase count of product `x` (the spec's trending count,
taken over the full window before any exclusion). -/
def trendingSpecCount (st : Store) (x : Int) : Nat :=
  (st.purchases.filter (fun p => decide (st.nowDay - 30 ≤ p.timestamp))).countP
    (fun p => p.product_id == x)

/-- Candidate set of the spec's TrendingFallback: products with a purchase in
the trailing 30 days, minus the caller's interacted products. -/
def trendingSpecCands (st : Store) (uid : Option Int) : List Int :=
  (dedupF ((st.purchases.filter (fun p => decide (st.nowDay - 30 ≤ p.timestamp))).map
    (fun p => p.product_id))).filter
    (fun x => !((get_interacted_product_ids st uid).contains x))

/-- The spec's full (untruncated) TrendingFallback ordering: descending by
count, ties by ascending product id. -/
def trendingSpecFull (st : Store) (uid : Option Int) : List Int :=
  sortS (fun a b => decide (trendingSpecCount st b < trendingSpecCount st a)
      || ((trendingSpecCount st a == trendingSpecCount st b) && decide (a < b)))
    (trendingSpecCands st uid)

/-- Contract of the trending SQL query as issued (`services.py`): it groups the
trailing-30-day purchases that survive the interaction exclusion by product and
orders by the aggregated count descending, with no secondary sort key, so the
database may return the group keys in any count-descending order.  `full` is a
pre-LIMIT row sequence the query may yield: a permutation of the group keys
that is sorted by descending count. -/
def trendingQueryOrders (st : Store) (uid : Option Int) (full : List Int) : Prop :=
  full.Perm (dedupF ((st.purchases.filter (fun p =>
      decide (st.nowDay - 30 ≤ p.timestamp)
        && !((get_interacted_product_ids st uid).contains p.product_id))).map
      (fun p => p.product_id)))
  ∧ full.Sorted (fun a b =>
      (st.purchases.filter (fun p =>
          decide (st.nowDay - 30 ≤ p.timestamp)
            && !((get_interacted_product_ids st uid).contains p.product_id))).countP
          (fun p => p.product_id == b)
        ≤ (st.purchases.filter (fun p =>
          decide (st.nowDay - 30 ≤ p.timestamp)
            && !((get_interacted_product_ids st uid).contains p.product_id))).countP
          (fun p => p.product_id == a))

/-- Concatenation of the category buckets. -/
def flatG : List (String × List Int) → List Int
  | [] => []
  | g :: gs => g.2 ++ flatG gs

/-- Shorthand product-row constructor for concrete stores. -/
def mkProduct (i : Int) (cat : String) (r : Int) : ProductR :=
  { product_id := i, name := "P", category := cat, tags := some "tag1 tag2",
    rating := Q.ofInt r, meta := none }

/-- Shorthand user-row constructor for concrete stores. -/
def mkUser (i : Int) : UserR :=
  { user_id := i, name := "U", location := "L", device := "Mobile" }

/-- Shorthand purchase-row constructor for concrete stores. -/
def mkPurchase (id u p q t : Int) : PurchaseR :=
  { id := id, user_id := u, product_id := p, quantity := q, timestamp := t }

/-- Shorthand browsing-row constructor for concrete stores. -/
def mkBrowse (id u p t : Int) : BrowsingR :=
  { id := id, user_id := u, product_id := p, timestamp := t }

/-- A store with nothing in it and a fixed clock (day 100, May 10, a Monday). -/
def emptyStore : Store :=
  { users := [], products := [], browsing := [], purchases := [], interactions := [],
    signals := [], cache := [], nowDay := 100, month := 5, day := 10, weekday := "Monday" }

/-- Store for C1: one product, no purchase events at all. -/
def storeC1 : Store := { emptyStore with products := [mkProduct 1 "A" 4] }

/-- Store for C2: one user who purchased the single product recently, so the
purchase matrix is 1×1 and the SVD generator's rank bound is 0. -/
def storeC2 : Store :=
  { emptyStore with
    users := [mkUser 1]
    products := [mkProduct 1 "A" 4]
    purchases := [mkPurchase 1 1 1 2 95] }

/-- Store for C3: one user who browsed the single product; no purchases, so the
candidate pool stays below the requested limit. -/
def storeC3 : Store :=
  { emptyStore with
    users := [mkUser 1]
    products := [mkProduct 1 "A" 4]
    browsing := [mkBrowse 1 1 1 95] }

/-- Store for C4: four products, three in category A and one in category B; the
user browsed product 2, so the content generator returns the whole catalog. -/
def storeC4 : Store :=
  { emptyStore with
    users := [mkUser 1]
    products := [mkProduct 1 "A" 4, mkProduct 2 "A" 4, mkProduct 3 "A" 4, mkProduct 4 "B" 4]
    browsing := [mkBrowse 1 1 2 95] }

/-- Store for C5: an existing user with no history but a stale non-empty cache
entry. -/
def storeC5 : Store :=
  { emptyStore with users := [mkUser 1], cache := [(1, [42])] }

/-- Store for C6: the product exists, no user does. -/
def storeC6 : Store := { emptyStore with products := [mkProduct 1 "A" 4] }

/-- Stores for C7: user 1 exists with no history; between the two calls the
store gains a fresh purchase by user 2, which changes the trending output. -/
def storeC7a : Store :=
  { emptyStore with users := [mkUser 1, mkUser 2], products := [mkProduct 5 "A" 4] }

/-- Second-call store for C7 (same cache, new purchase by another user). -/
def storeC7b : Store := { storeC7a with purchases := [mkPurchase 1 2 5 1 95] }

/-- Store for the C8 counterexample: two products, each with exactly one recent
purchase, so their trending counts tie at 1. -/
def storeC8 : Store :=
  { emptyStore with
    users := [mkUser 1]
    products := [mkProduct 1 "A" 4, mkProduct 2 "A" 4]
    purchases := [mkPurchase 1 1 1 1 95, mkPurchase 2 1 2 1 95] }

/-- Store for the C8 witness: product 1 purchased twice and product 2 once, so
the trending counts are distinct and the query order is forced. -/
def storeC8w : Store :=
  { emptyStore with
    users := [mkUser 1]
    products := [mkProduct 1 "A" 4, mkProduct 2 "A" 4]
    purchases := [mkPurchase 1 1 1 1 95, mkPurchase 2 1 1 1 95, mkPurchase 3 1 2 1 95] }

/-- Store for C9: products 1 and 2 share category and tags, product 3 differs
in both; the user browsed product 1.  Product 2's rating is `0`, so its
rating-derived similarity to every product is `0`. -/
def storeC9 : Store :=
  { emptyStore with
    users := [mkUser 1]
    products :=
      [{ product_id := 1, name := "P", category := "books", tags := some "a",
         rating := Q.ofInt 5, meta := none },
       { product_id := 2, name := "P", category := "books", tags := some "a",
         rating := Q.ofInt 0, meta := none },
       { product_id := 3, name := "P", category := "toys", tags := some "z",
         rating := Q.ofInt 5, meta := none }]
    browsing := [mkBrowse 1 1 1 95] }

/-- Store for the C4 witness: two categories with two products each. -/
def storeC4w : Store :=
  { emptyStore with
    products := [mkProduct 1 "A" 4, mkProduct 2 "A" 4, mkProduct 3 "B" 4, mkProduct 4 "B" 4] }

/-- Store for the C10 witness: a non-empty cache entry for user 7, who does not
exist in the users table. -/
def storeC10 : Store := { emptyStore with cache := [(7, [9, 8])] }

/-- Membership test used to count how many of a bucket's ids appear in a
result list. -/
def memB (S : List Int) : Int → Bool := fun x => decide (x ∈ S)

/-! ## Basic lemmas about the embedding's helpers -/

theorem mem_dedupF {x : Int} : ∀ {l : List Int}, x ∈ dedupF l ↔ x ∈ l
  | [] => Iff.rfl
  | y :: ys => by
    simp only [dedupF, List.mem_cons, List.mem_filter, bne_iff_ne, ne_eq]
    constructor
    · rintro (rfl | ⟨h, _⟩)
      · exact Or.inl rfl
      · exact Or.inr (mem_dedupF.mp h)
    · rintro (rfl | h)
      · exact Or.inl rfl
      · by_cases hxy : x = y
        · exact Or.inl hxy
        · exact Or.inr ⟨mem_dedupF.mpr h, hxy⟩

theorem dedupF_nodup : ∀ l : List Int, (dedupF l).Nodup
  | [] => List.nodup_nil
  | y :: ys => by
    simp only [dedupF]
    refine List.Nodup.cons ?_ ((dedupF_nodup ys).filter _)
    intro hmem
    rcases List.mem_filter.mp hmem with ⟨_, hne⟩
    simp at hne

theorem sortS_perm (lt : α → α → Bool) (l : List α) : List.Perm (sortS lt l) l :=
  List.perm_insertionSort _ l

theorem sortS_nodup {lt : α → α → Bool} {l : List α} (h : l.Nodup) : (sortS lt l).Nodup :=
  ((sortS_perm lt l).nodup_iff).mpr h

theorem trending_length_le (st : Store) (uid : Option Int) (limit : Nat) :
    (get_trending_products st uid limit).length ≤ limit := by
  simp [get_trending_products]

theorem trending_nodup (st : Store) (uid : Option Int) (limit : Nat) :
    (get_trending_products st uid limit).Nodup := by
  unfold get_trending_products
  exact (sortS_nodup (sortS_nodup (dedupF_nodup _))).sublist (List.take_sublist _ _)

/-! ## Lemmas about the diversity-enforcement loop -/

theorem enforce_pass_cons_nil (c : String) (rest : List (String × List Int)) (acc : List Int)
    (limit : Nat) :
    enforce_pass ((c, []) :: rest) acc limit =
      if limit ≤ acc.length then ((c, []) :: rest, acc)
      else ((c, []) :: (enforce_pass rest acc limit).1, (enforce_pass rest acc limit).2) := rfl

theorem enforce_pass_cons_cons (c : String) (h : Int) (t : List Int)
    (rest : List (String × List Int)) (acc : List Int) (limit : Nat) :
    enforce_pass ((c, h :: t) :: rest) acc limit =
      if limit ≤ (acc ++ [h]).length then ((c, t) :: rest, acc ++ [h])
      else ((c, t) :: (enforce_pass rest (acc ++ [h]) limit).1,
            (enforce_pass rest (acc ++ [h]) limit).2) := rfl

theorem enforce_pass_prefix :
    ∀ (groups : List (String × List Int)) (acc : List Int) (limit : Nat),
    ∃ δ, (enforce_pass groups acc limit).2 = acc ++ δ
  | [], acc, _ => ⟨[], by simp [enforce_pass]⟩
  | (c, []) :: rest, acc, limit => by
    rw [enforce_pass_cons_nil]
    by_cases hl : limit ≤ acc.length
    · rw [if_pos hl]
      exact ⟨[], by simp⟩
    · rw [if_neg hl]
      exact enforce_pass_prefix rest acc limit
  | (c, h :: t) :: rest, acc, limit => by
    rw [enforce_pass_cons_cons]
    by_cases hl : limit ≤ (acc ++ [h]).length
    · rw [if_pos hl]
      exact ⟨[h], rfl⟩
    · rw [if_neg hl]
      obtain ⟨δ, hδ⟩ := enforce_pass_prefix rest (acc ++ [h]) limit
      exact ⟨[h] ++ δ, by simp [hδ]⟩

theorem enforce_pass_perm :
    ∀ (groups : List (String × List Int)) (acc : List Int) (limit : Nat),
    List.Perm ((enforce_pass groups acc limit).2 ++ flatG (enforce_pass groups acc limit).1)
      (acc ++ flatG groups)
  | [], acc, _ => by simp [enforce_pass]
  | (c, []) :: rest, acc, limit => by
    rw [enforce_pass_cons_nil]
    by_cases hl : limit ≤ acc.length
    · rw [if_pos hl]
    · rw [if_neg hl]
      have base := enforce_pass_perm rest acc limit
      refine List.perm_iff_count.mpr (fun a => ?_)
      have hb := List.perm_iff_count.mp base a
      simp only [List.count_append, flatG] at hb ⊢
      omega
  | (c, h :: t) :: rest, acc, limit => by
    rw [enforce_pass_cons_cons]
    by_cases hl : limit ≤ (acc ++ [h]).length
    · rw [if_pos hl]
      refine List.perm_iff_count.mpr (fun a => ?_)
      simp only [List.count_append, flatG, List.count_cons, List.count_nil]
      omega
    · rw [if_neg hl]
      have base := enforce_pass_perm rest (acc ++ [h]) limit
      refine List.perm_iff_count.mpr (fun a => ?_)
      have hb := List.perm_iff_count.mp base a
      simp only [List.count_append, flatG, List.count_cons, List.count_nil] at hb ⊢
      omega

theorem enforce_pass_length_le :
    ∀ (groups : List (String × List Int)) (acc : List Int) (limit : Nat),
    acc.length < limit → (enforce_pass groups acc limit).2.length ≤ limit
  | [], acc, limit, h => by simpa [enforce_pass] using Nat.le_of_lt h
  | (c, []) :: rest, acc, limit, h => by
    rw [enforce_pass_cons_nil, if_neg (Nat.not_le.mpr h)]
    exact enforce_pass_length_le rest acc limit h
  | (c, h0 :: t) :: rest, acc, limit, h => by
    rw [enforce_pass_cons_cons]
    by_cases hl : limit ≤ (acc ++ [h0]).length
    · rw [if_pos hl]
      simpa using h
    · rw [if_neg hl]
      exact enforce_pass_length_le rest (acc ++ [h0]) limit (Nat.not_le.mp hl)

theorem enforce_pass_length_eq :
    ∀ (groups : List (String × List Int)) (acc : List Int) (limit : Nat),
    (∀ g ∈ groups, g.2 ≠ []) → acc.length < limit →
    (enforce_pass groups acc limit).2.length = min (acc.length + groups.length) limit
  | [], acc, limit, _, h => by
    simp only [enforce_pass, List.length_nil, Nat.add_zero]
    omega
  | (c, []) :: rest, acc, limit, hne, _ => by
    exact absurd rfl (hne (c, []) (List.mem_cons_self _ _))
  | (c, h0 :: t) :: rest, acc, limit, hne, h => by
    rw [enforce_pass_cons_cons]
    by_cases hl : limit ≤ (acc ++ [h0]).length
    · rw [if_pos hl]
      simp only [List.length_append, List.length_singleton, List.length_cons,
        List.length_nil, Nat.min_def] at hl ⊢
      split_ifs <;> omega
    · rw [if_neg hl]
      have hlt : (acc ++ [h0]).length < limit := Nat.not_le.mp hl
      have ih := enforce_pass_length_eq rest (acc ++ [h0]) limit
        (fun g hg => hne g (List.mem_cons_of_mem _ hg)) hlt
      rw [ih]
      simp only [List.length_append, List.length_singleton, List.length_cons,
        List.length_nil, Nat.min_def]
      split_ifs <;> omega

theorem enforce_pass_track :
    ∀ (groups : List (String × List Int)) (acc : List Int) (limit : Nat) {g},
    g ∈ groups →
    ∃ g2 ∈ (enforce_pass groups acc limit).1, g2.2 = g.2 ∨ ∃ h0, g.2 = h0 :: g2.2
  | [], _, _, _, hg => absurd hg (List.not_mem_nil _)
  | (c, []) :: rest, acc, limit, g, hg => by
    rw [enforce_pass_cons_nil]
    by_cases hl : limit ≤ acc.length
    · rw [if_pos hl]
      exact ⟨g, hg, Or.inl rfl⟩
    · rw [if_neg hl]
      rcases List.mem_cons.mp hg with hg | hg
      · exact ⟨(c, []), List.mem_cons_self _ _, Or.inl (by rw [hg])⟩
      · obtain ⟨g2, hmem, hrel⟩ := enforce_pass_track rest acc limit hg
        exact ⟨g2, List.mem_cons_of_mem _ hmem, hrel⟩
  | (c, h0 :: t) :: rest, acc, limit, g, hg => by
    rw [enforce_pass_cons_cons]
    by_cases hl : limit ≤ (acc ++ [h0]).length
    · rw [if_pos hl]
      rcases List.mem_cons.mp hg with hg | hg
      · exact ⟨(c, t), List.mem_cons_self _ _, Or.inr ⟨h0, by rw [hg]⟩⟩
      · exact ⟨g, List.mem_cons_of_mem _ hg, Or.inl rfl⟩
    · rw [if_neg hl]
      rcases List.mem_cons.mp hg with hg | hg
      · exact ⟨(c, t), List.mem_cons_self _ _, Or.inr ⟨h0, by rw [hg]⟩⟩
      · obtain ⟨g2, hmem, hrel⟩ := enforce_pass_track rest (acc ++ [h0]) limit hg
        exact ⟨g2, List.mem_cons_of_mem _ hmem, hrel⟩

theorem enforce_pass_groups_length :
    ∀ (groups : List (String × List Int)) (acc : List Int) (limit : Nat),
    (enforce_pass groups acc limit).1.length = groups.length
  | [], _, _ => rfl
  | (c, []) :: rest, acc, limit => by
    rw [enforce_pass_cons_nil]
    by_cases hl : limit ≤ acc.length
    · rw [if_pos hl]
    · rw [if_neg hl]
      simp [enforce_pass_groups_length rest acc limit]
  | (c, h0 :: t) :: rest, acc, limit => by
    rw [enforce_pass_cons_cons]
    by_cases hl : limit ≤ (acc ++ [h0]).length
    · rw [if_pos hl]
      simp
    · rw [if_neg hl]
      simp [enforce_pass_groups_length rest (acc ++ [h0]) limit]

theorem enforce_pass_id_of_empty :
    ∀ (groups : List (String × List Int)) (acc : List Int) (limit : Nat),
    (∀ g ∈ groups, g.2 = []) → acc.length < limit →
    enforce_pass groups acc limit = (groups, acc)
  | [], acc, limit, _, _ => rfl
  | (c, ps) :: rest, acc, limit, hemp, h => by
    have hps : ps = [] := hemp (c, ps) (List.mem_cons_self _ _)
    subst hps
    rw [enforce_pass_cons_nil, if_neg (Nat.not_le.mpr h),
      enforce_pass_id_of_empty rest acc limit (fun g hg => hemp g (List.mem_cons_of_mem _ hg)) h]

theorem diversityLoop_succ (limit fuel : Nat) (groups : List (String × List Int))
    (acc : List Int) :
    diversityLoop limit (fuel + 1) groups acc =
      if limit ≤ acc.length then some acc
      else diversityLoop limit fuel (enforce_pass groups acc limit).1
        (enforce_pass groups acc limit).2 := rfl

theorem diversityLoop_length_le (limit : Nat) :
    ∀ (fuel : Nat) (groups : List (String × List Int)) (acc r : List Int),
    acc.length ≤ limit → diversityLoop limit fuel groups acc = some r → r.length ≤ limit
  | 0, _, _, _, _, hr => by simp [diversityLoop] at hr
  | fuel + 1, groups, acc, r, hle, hr => by
    rw [diversityLoop_succ] at hr
    by_cases hl : limit ≤ acc.length
    · rw [if_pos hl] at hr
      cases hr
      exact hle
    · rw [if_neg hl] at hr
      exact diversityLoop_length_le limit fuel _ _ r
        (enforce_pass_length_le groups acc limit (Nat.not_le.mp hl)) hr

theorem diversityLoop_length_ge (limit : Nat) :
    ∀ (fuel : Nat) (groups : List (String × List Int)) (acc r : List Int),
    diversityLoop limit fuel groups acc = some r → limit ≤ r.length
  | 0, _, _, _, hr => by simp [diversityLoop] at hr
  | fuel + 1, groups, acc, r, hr => by
    rw [diversityLoop_succ] at hr
    by_cases hl : limit ≤ acc.length
    · rw [if_pos hl] at hr
      cases hr
      exact hl
    · rw [if_neg hl] at hr
      exact diversityLoop_length_ge limit fuel _ _ r hr

theorem diversityLoop_nodup (limit : Nat) :
    ∀ (fuel : Nat) (groups : List (String × List Int)) (acc r : List Int),
    (acc ++ flatG groups).Nodup → diversityLoop limit fuel groups acc = some r → r.Nodup
  | 0, _, _, _, _, hr => by simp [diversityLoop] at hr
  | fuel + 1, groups, acc, r, hnd, hr => by
    rw [diversityLoop_succ] at hr
    by_cases hl : limit ≤ acc.length
    · rw [if_pos hl] at hr
      cases hr
      exact hnd.of_append_left
    · rw [if_neg hl] at hr
      exact diversityLoop_nodup limit fuel _ _ r
        (((enforce_pass_perm groups acc limit).nodup_iff).mpr hnd) hr

theorem diversityLoop_none_of_empty (limit : Nat) (groups : List (String × List Int))
    (acc : List Int) (hemp : ∀ g ∈ groups, g.2 = []) (hlt : acc.length < limit) :
    ∀ fuel, diversityLoop limit fuel groups acc = none
  | 0 => rfl
  | fuel + 1 => by
    rw [diversityLoop_succ, if_neg (Nat.not_le.mpr hlt),
      enforce_pass_id_of_empty groups acc limit hemp hlt]
    exact diversityLoop_none_of_empty limit groups acc hemp hlt fuel

/-! ## Counting candidates per category bucket -/

theorem countP_memB_eq_zero {S r : List Int} (h : ∀ x ∈ r, x ∉ S) :
    r.countP (memB S) = 0 := by
  rw [List.countP_eq_zero]
  intro a ha
  simp only [memB, decide_eq_true_eq]
  exact h a ha

theorem countP_memB_cons_le (r : List Int) (h0 : Int) (t : List Int) :
    r.countP (memB (h0 :: t)) ≤ r.countP (memB t) + r.count h0 := by
  induction r with
  | nil => simp
  | cons x r ih =>
    simp only [List.countP_cons, List.count_cons, memB, decide_eq_true_eq, List.mem_cons]
    by_cases hx1 : x = h0 <;> by_cases hx2 : x ∈ t <;> simp [hx1, hx2] <;> omega

theorem countP_memB_tail_le (r : List Int) (h0 : Int) (t : List Int) :
    r.countP (memB t) ≤ r.countP (memB (h0 :: t)) := by
  induction r with
  | nil => simp
  | cons x r ih =>
    simp only [List.countP_cons, memB, decide_eq_true_eq, List.mem_cons]
    by_cases hx2 : x ∈ t <;> simp [hx2] <;> omega

theorem mem_flatG_of_mem_bucket :
    ∀ {groups : List (String × List Int)} {g : String × List Int} {x : Int},
    g ∈ groups → x ∈ g.2 → x ∈ flatG groups
  | g0 :: gs, g, x, hg, hx => by
    rcases List.mem_cons.mp hg with hg | hg
    · subst hg
      exact List.mem_append_left _ hx
    · exact List.mem_append_right _ (mem_flatG_of_mem_bucket hg hx)

theorem enforce_pass_track_rev :
    ∀ (groups : List (String × List Int)) (acc : List Int) (limit : Nat) {g2},
    g2 ∈ (enforce_pass groups acc limit).1 →
    ∃ g ∈ groups, g2.2 = g.2 ∨ ∃ h0, g.2 = h0 :: g2.2
  | [], _, _, _, hg => absurd hg (List.not_mem_nil _)
  | (c, []) :: rest, acc, limit, g2, hg => by
    rw [enforce_pass_cons_nil] at hg
    by_cases hl : limit ≤ acc.length
    · rw [if_pos hl] at hg
      exact ⟨g2, hg, Or.inl rfl⟩
    · rw [if_neg hl] at hg
      rcases List.mem_cons.mp hg with hg | hg
      · exact ⟨(c, []), List.mem_cons_self _ _, Or.inl (by rw [hg])⟩
      · obtain ⟨g, hmem, hrel⟩ := enforce_pass_track_rev rest acc limit hg
        exact ⟨g, List.mem_cons_of_mem _ hmem, hrel⟩
  | (c, h0 :: t) :: rest, acc, limit, g2, hg => by
    rw [enforce_pass_cons_cons] at hg
    by_cases hl : limit ≤ (acc ++ [h0]).length
    · rw [if_pos hl] at hg
      rcases List.mem_cons.mp hg with hg | hg
      · exact ⟨(c, h0 :: t), List.mem_cons_self _ _, Or.inr ⟨h0, by rw [hg]⟩⟩
      · exact ⟨g2, List.mem_cons_of_mem _ hg, Or.inl rfl⟩
    · rw [if_neg hl] at hg
      rcases List.mem_cons.mp hg with hg | hg
      · exact ⟨(c, h0 :: t), List.mem_cons_self _ _, Or.inr ⟨h0, by rw [hg]⟩⟩
      · obtain ⟨g, hmem, hrel⟩ := enforce_pass_track_rev rest (acc ++ [h0]) limit hg
        exact ⟨g, List.mem_cons_of_mem _ hmem, hrel⟩

theorem diversityLoop_category_bound (limit : Nat) :
    ∀ (fuel : Nat) (groups : List (String × List Int)) (acc r : List Int) (j : Nat)
      (S : List Int),
    diversityLoop limit fuel groups acc = some r →
    (acc ++ flatG groups).Nodup →
    limit ≤ acc.length + j * groups.length →
    (∀ g ∈ groups, j ≤ g.2.length) →
    (∃ g ∈ groups, S = g.2) →
    r.countP (memB S) ≤ acc.countP (memB S) + j
  | 0, _, _, _, _, _, hr, _, _, _, _ => by simp [diversityLoop] at hr
  | fuel + 1, groups, acc, r, j, S, hr, hnd, hcap, hsup, hex => by
    rw [diversityLoop_succ] at hr
    by_cases hl : limit ≤ acc.length
    · rw [if_pos hl] at hr
      cases hr
      exact Nat.le_add_right _ _
    · rw [if_neg hl] at hr
      have hlt : acc.length < limit := Nat.not_le.mp hl
      obtain ⟨g, hgmem, hS⟩ := hex
      -- the pass budget is positive
      obtain ⟨j', rfl⟩ : ∃ j', j = j' + 1 := by
        cases j with
        | zero => simp at hcap; omega
        | succ j' => exact ⟨j', rfl⟩
      have hne : ∀ g' ∈ groups, g'.2 ≠ [] := by
        intro g' hg'
        have := hsup g' hg'
        intro hnil
        rw [hnil] at this
        simp at this
      have hperm := enforce_pass_perm groups acc limit
      have hnd2 : ((enforce_pass groups acc limit).2
          ++ flatG (enforce_pass groups acc limit).1).Nodup := hperm.nodup_iff.mpr hnd
      have hlen2 := enforce_pass_length_eq groups acc limit hne hlt
      have hglen := enforce_pass_groups_length groups acc limit
      have hcap2 : limit ≤ (enforce_pass groups acc limit).2.length
          + j' * (enforce_pass groups acc limit).1.length := by
        rw [hlen2, hglen]
        rw [Nat.succ_mul] at hcap
        rw [Nat.min_def]
        split_ifs <;> omega
      have hsup2 : ∀ g2 ∈ (enforce_pass groups acc limit).1, j' ≤ g2.2.length := by
        intro g2 hg2
        obtain ⟨g0, hg0mem, hrel⟩ := enforce_pass_track_rev groups acc limit hg2
        have hg0 := hsup g0 hg0mem
        rcases hrel with heq | ⟨h0, heq⟩
        · rw [heq]
          omega
        · rw [heq] at hg0
          simp only [List.length_cons] at hg0
          omega
      -- the tracked bucket after the pass
      obtain ⟨g2, hg2mem, hrel⟩ := enforce_pass_track groups acc limit hgmem
      obtain ⟨δ, hδ⟩ := enforce_pass_prefix groups acc limit
      have hδdisj : ∀ x ∈ δ, x ∉ flatG (enforce_pass groups acc limit).1 := by
        intro x hx
        have hxp : x ∈ (enforce_pass groups acc limit).2 := by
          rw [hδ]
          exact List.mem_append_right _ hx
        exact fun hxf => (List.disjoint_of_nodup_append hnd2) hxp hxf
      have hrnodup : r.Nodup := diversityLoop_nodup limit fuel _ _ r hnd2 hr
      rcases hrel with heq | ⟨h0, heq⟩
      · -- bucket unchanged: recurse with the same tracked set
        have ih := diversityLoop_category_bound limit fuel _ _ r j' S hr hnd2 hcap2 hsup2
          ⟨g2, hg2mem, by rw [heq, hS]⟩
        have hzero : δ.countP (memB S) = 0 := by
          refine countP_memB_eq_zero (fun x hx hxS => ?_)
          refine hδdisj x hx (mem_flatG_of_mem_bucket hg2mem ?_)
          rw [heq, ← hS]
          exact hxS
        rw [hδ, List.countP_append, hzero] at ih
        omega
      · -- the pass popped the bucket's head: one extra occurrence at most
        have hS2 : S = h0 :: g2.2 := by rw [hS, heq]
        have ih := diversityLoop_category_bound limit fuel _ _ r j' g2.2 hr hnd2 hcap2 hsup2
          ⟨g2, hg2mem, rfl⟩
        have hsub := countP_memB_cons_le r h0 g2.2
        have hcount : r.count h0 ≤ 1 := List.nodup_iff_count_le_one.mp hrnodup h0
        have hzero : δ.countP (memB g2.2) = 0 := by
          refine countP_memB_eq_zero (fun x hx hxS => ?_)
          exact hδdisj x hx (mem_flatG_of_mem_bucket hg2mem hxS)
        rw [hδ, List.countP_append, hzero] at ih
        have htail := countP_memB_tail_le acc h0 g2.2
        rw [hS2]
        omega

/-! ## The category map of enforce_diversity -/

theorem flatG_catInsert_perm :
    ∀ (m : List (String × List Int)) (c : String) (x : Int),
    List.Perm (flatG (catInsert m c x)) (flatG m ++ [x])
  | [], c, x => by simp [catInsert, flatG]
  | (c0, xs) :: rest, c, x => by
    simp only [catInsert]
    by_cases h : c0 = c
    · simp only [h, beq_self_eq_true, if_true, flatG]
      refine List.perm_iff_count.mpr (fun a => ?_)
      simp only [List.count_append, flatG]
      omega
    · rw [if_neg (by simpa using h)]
      have ih := flatG_catInsert_perm rest c x
      refine List.perm_iff_count.mpr (fun a => ?_)
      have hc := List.perm_iff_count.mp ih a
      simp only [List.count_append, flatG] at hc ⊢
      omega

theorem flatG_buildCategoryMap_aux :
    ∀ (details : List ProductR) (m : List (String × List Int)),
    List.Perm (flatG (details.foldl (fun m p => catInsert m p.category p.product_id) m))
      (flatG m ++ details.map (fun p => p.product_id))
  | [], m => by simp
  | d :: ds, m => by
    simp only [List.foldl_cons, List.map_cons]
    have ih := flatG_buildCategoryMap_aux ds (catInsert m d.category d.product_id)
    have hins := flatG_catInsert_perm m d.category d.product_id
    refine List.perm_iff_count.mpr (fun a => ?_)
    have h1 := List.perm_iff_count.mp ih a
    have h2 := List.perm_iff_count.mp hins a
    simp only [List.count_append, List.count_cons, List.count_nil] at h1 h2 ⊢
    omega

theorem flatG_buildCategoryMap (details : List ProductR) :
    List.Perm (flatG (buildCategoryMap details)) (details.map (fun p => p.product_id)) := by
  simpa [buildCategoryMap, flatG] using flatG_buildCategoryMap_aux details []

theorem details_map_nodup (st : Store) (pool : List Int)
    (hwf : (st.products.map (fun p => p.product_id)).Nodup) :
    ((st.products.filter (fun p => pool.contains p.product_id)).map
      (fun p => p.product_id)).Nodup :=
  List.Nodup.sublist (List.Sublist.map _ (List.filter_sublist st.products)) hwf

theorem enforce_diversity_spec (st : Store) (pool : List Int) (limit fuel : Nat) (r : List Int)
    (hwf : (st.products.map (fun p => p.product_id)).Nodup)
    (h : enforce_diversity st pool limit fuel = some r) :
    r.length = limit ∧ r.Nodup := by
  unfold enforce_diversity at h
  have hnd : (([] : List Int) ++ flatG (buildCategoryMap
      (st.products.filter (fun p => pool.contains p.product_id)))).Nodup := by
    rw [List.nil_append]
    exact ((flatG_buildCategoryMap _).nodup_iff).mpr (details_map_nodup st pool hwf)
  refine ⟨Nat.le_antisymm ?_ ?_, diversityLoop_nodup limit fuel _ _ r hnd h⟩
  · exact diversityLoop_length_le limit fuel _ _ r (by simp) h
  · exact diversityLoop_length_ge limit fuel _ _ r h

/-! ## Claim theorems -/

/-- C1 (amended): for every limit L and user U, whenever `recommend(U, L)`
terminates without serving a (non-empty) cached entry, it returns a list of at
most L product identifiers containing no duplicates; it may however return
fewer items than the catalog after exclusions can supply, because candidates
are drawn only from the generators and from products with recent purchases. -/
theorem c1_bounded_nodup (kern : SvdKernel) (st : Store) (uid : Option Int)
    (limit fuel : Nat) (r : List Int) (c2 : List (Int × List Int))
    (hwf : (st.products.map (fun p => p.product_id)).Nodup)
    (hcache : ∀ u, uid = some u →
      lookupCache st.cache u = none ∨ lookupCache st.cache u = some [])
    (hres : get_hybrid_recommendations kern st uid limit fuel = some (.ok (r, c2))) :
    r.length ≤ limit ∧ r.Nodup := by
  cases uid with
  | none =>
    simp only [get_hybrid_recommendations, Option.some.injEq, Except.ok.injEq,
      Prod.mk.injEq] at hres
    obtain ⟨rfl, -⟩ := hres
    exact ⟨trending_length_le st none limit, trending_nodup st none limit⟩
  | some u =>
    simp only [get_hybrid_recommendations] at hres
    split at hres
    · rename_i h t heq
      rcases hcache u rfl with hc | hc <;> rw [hc] at heq <;> simp at heq
    · split_ifs at hres with h404 hcold
      · simp at hres
      · simp only [Option.some.injEq, Except.ok.injEq, Prod.mk.injEq] at hres
        obtain ⟨rfl, -⟩ := hres
        exact ⟨trending_length_le st (some u) limit, trending_nodup st (some u) limit⟩
      · split at hres
        · simp at hres
        · split at hres
          · simp at hres
          · rename_i final heq
            simp only [Option.some.injEq, Except.ok.injEq, Prod.mk.injEq] at hres
            obtain ⟨rfl, -⟩ := hres
            have := enforce_diversity_spec st _ limit fuel final hwf heq
            exact ⟨Nat.le_of_eq this.1, this.2⟩

theorem le_ceilDiv_mul (limit c : Nat) (hc : 1 ≤ c) :
    limit ≤ ((limit + c - 1) / c) * c := by
  have h1 := Nat.div_add_mod (limit + c - 1) c
  have h2 : (limit + c - 1) % c < c := Nat.mod_lt _ (by omega)
  have h3 : ((limit + c - 1) / c) * c = c * ((limit + c - 1) / c) := Nat.mul_comm _ _
  omega

/-- C1 counterexample: with a one-product catalog and no purchase events, the
anonymous call `recommend(none, 1)` returns the empty list although the catalog
(after the empty exclusion set of the anonymous caller) can supply one product:
the "never fewer items than the catalog can supply" part of the claim fails. -/
theorem c1_counterexample :
    get_hybrid_recommendations svdZero storeC1 none 1 0 = some (.ok ([], []))
    ∧ storeC1.products.length = 1
    ∧ get_interacted_product_ids storeC1 none = [] := by decide

/-- C1 witness: the amended bound evaluated on the concrete run of `storeC4`. -/
theorem c1_witness :
    ([1, 4, 2, 3] : List Int).length ≤ 4 ∧ ([1, 4, 2, 3] : List Int).Nodup :=
  c1_bounded_nodup svdZero storeC4 (some 1) 4 10 [1, 4, 2, 3] [(1, [1, 4, 2, 3])]
    (by decide) (fun u h => by cases h; exact Or.inl (by decide)) (by decide)

/-- C4 (amended): in the diversified result, no category contributes more than
`⌈L / c⌉` identifiers — provided every one of the `c` candidate categories
supplies at least `⌈L / c⌉` candidates.  (When a category bucket is exhausted
before the round-robin completes, the remaining categories absorb its turns and
the bound can be exceeded, as the counterexample shows.) -/
theorem c4_diversity_bound (st : Store) (pool : List Int) (limit fuel : Nat)
    (r : List Int) (groups : List (String × List Int)) (g : String × List Int)
    (hg : groups = buildCategoryMap (st.products.filter (fun p => pool.contains p.product_id)))
    (hwf : (st.products.map (fun p => p.product_id)).Nodup)
    (hfill : ∀ g2 ∈ groups, (limit + groups.length - 1) / groups.length ≤ g2.2.length)
    (hres : enforce_diversity st pool limit fuel = some r)
    (hmem : g ∈ groups) :
    r.countP (memB g.2) ≤ (limit + groups.length - 1) / groups.length := by
  have hc : 1 ≤ groups.length := List.length_pos.mpr (List.ne_nil_of_mem hmem)
  simp only [enforce_diversity] at hres
  rw [← hg] at hres
  have hnd : (([] : List Int) ++ flatG groups).Nodup := by
    rw [List.nil_append, hg]
    exact ((flatG_buildCategoryMap _).nodup_iff).mpr (details_map_nodup st pool hwf)
  have hbound := diversityLoop_category_bound limit fuel groups [] r
    ((limit + groups.length - 1) / groups.length) g.2 hres hnd
    (by simpa using le_ceilDiv_mul limit groups.length hc) hfill ⟨g, hmem, rfl⟩
  simpa using hbound

/-- C4 counterexample: on `storeC4`, `recommend(1, 4)` returns `[1, 4, 2, 3]`;
the candidate pool spans the 2 categories A and B, yet category A contributes
3 > ⌈4 / 2⌉ = 2 identifiers (bucket B is exhausted after its single
candidate and A absorbs the remaining turns). -/
theorem c4_counterexample :
    get_hybrid_recommendations svdZero storeC4 (some 1) 4 10
      = some (.ok ([1, 4, 2, 3], [(1, [1, 4, 2, 3])]))
    ∧ buildCategoryMap (storeC4.products.filter (fun p => [1, 2, 3, 4].contains p.product_id))
      = [("A", [1, 2, 3]), ("B", [4])]
    ∧ [1, 4, 2, 3].countP (memB [1, 2, 3]) = 3
    ∧ (4 + 2 - 1) / 2 = 2 := by decide

/-- C4 witness: the amended bound evaluated on a pool whose two category
buckets both hold ⌈4 / 2⌉ = 2 candidates. -/
theorem c4_witness :
    enforce_diversity storeC4w [1, 2, 3, 4] 4 10 = some [1, 3, 2, 4]
    ∧ [1, 3, 2, 4].countP (memB [1, 2]) ≤ (4 + 2 - 1) / 2 := by
  refine ⟨by decide, ?_⟩
  have h := c4_diversity_bound storeC4w [1, 2, 3, 4] 4 10 [1, 3, 2, 4]
    [("A", [1, 2]), ("B", [3, 4])] ("A", [1, 2]) (by decide) (by decide)
    (by decide) (by decide) (by decide)
  simpa using h

/-- C2: on `storeC2` user 1 has purchase history, four of the five generators
return normally (each `.ok []`), and only the SVD generator raises (its rank
bound `min(10, min(1, 1) - 1) = 0` violates the `svds` precondition); yet
`recommend(1, 5)` surfaces the HTTP 500 instead of substituting an empty
contribution — the `asyncio.gather` join aborts the whole call, for any SVD
kernel. -/
theorem c2_single_generator_failure_aborts (kern : SvdKernel) :
    get_hybrid_recommendations kern storeC2 (some 1) 5 0 = some (.error .http500)
    ∧ storeC2.purchases.any (fun p => p.user_id == 1) = true
    ∧ get_user_based_recommendations storeC2 (some 1) 5 = .ok []
    ∧ get_content_based_recommendations storeC2 (some 1) 5 = .ok []
    ∧ get_personalized_recommendations storeC2 (some 1) 5 = .ok []
    ∧ get_contextual_recommendations storeC2 (some 1) 5 = .ok []
    ∧ get_svd_recommendations kern storeC2 (some 1) 5 = .error .http500 :=
  ⟨rfl, rfl, rfl, rfl, rfl, rfl, rfl⟩

/-- C3: on `storeC3` user 1 has browsing history and the candidate pool holds a
single product while the limit is 2; the `while` loop of `enforce_diversity`
then never terminates — for every loop-iteration budget `recommend(1, 2)` has
not produced a result, for any SVD kernel.  This refutes "recommend terminates
on every input". -/
theorem c3_diversity_loop_nontermination (fuel : Nat) (kern : SvdKernel) :
    get_hybrid_recommendations kern storeC3 (some 1) 2 fuel = none := by
  have key : diversityLoop 2 fuel [("A", [1])] [] = none := by
    cases fuel with
    | zero => rfl
    | succ fuel =>
      rw [diversityLoop_succ, if_neg (by decide)]
      have hp : enforce_pass [("A", [1])] [] 2 = ([("A", [])], [1]) := by decide
      rw [hp]
      exact diversityLoop_none_of_empty 2 [("A", [])] [1] (by decide) (by decide) fuel
  have hred : get_hybrid_recommendations kern storeC3 (some 1) 2 fuel
      = match diversityLoop 2 fuel [("A", [1])] [] with
        | none => none
        | some final => some (.ok (final, cacheSet storeC3.cache 1 final)) := rfl
  rw [hred, key]

theorem lookupCache_cacheSet (c : List (Int × List Int)) (u : Int) (v : List Int) :
    lookupCache (cacheSet c u v) u = some v := by
  simp [lookupCache, cacheSet]

/-- C5 (amended): `recommend` returns exactly the TrendingFallback output for
every anonymous call unconditionally, and for every existing user with zero
browsing and zero purchase events provided no non-empty cache entry exists for
that user (the cache is consulted first and a hit returns the cached list
instead, as the counterexample shows); in both cases the generators' result is
the trending list and the cache is left unchanged. -/
theorem c5_cold_start_trending (kern : SvdKernel) (st : Store) (uid : Option Int)
    (limit fuel : Nat)
    (h : uid = none ∨ ∃ u, uid = some u
      ∧ (lookupCache st.cache u = none ∨ lookupCache st.cache u = some [])
      ∧ (st.users.find? (fun x => x.user_id == u)).isSome = true
      ∧ st.browsing.any (fun b => b.user_id == u) = false
      ∧ st.purchases.any (fun p => p.user_id == u) = false) :
    get_hybrid_recommendations kern st uid limit fuel
      = some (.ok (get_trending_products st uid limit, st.cache)) := by
  rcases h with rfl | ⟨u, rfl, hc, hex, hb, hp⟩
  · rfl
  · simp only [get_hybrid_recommendations]
    split
    · rename_i h0 t0 heq
      rcases hc with hc | hc <;> rw [hc] at heq <;> exact absurd heq (by simp)
    · have hno : (st.users.find? (fun x => x.user_id == u)).isNone = false := by
        rcases Option.isSome_iff_exists.mp hex with ⟨w, hw⟩
        rw [hw]
        rfl
      rw [if_neg (by simp [hno]), if_pos (by simp [hb, hp])]

/-- C5 counterexample: user 1 exists with zero browsing and zero purchase
events, but a non-empty cache entry `[42]` is present; `recommend(1, 3)`
returns the cached `[42]`, not the TrendingFallback output `[]`. -/
theorem c5_counterexample :
    get_hybrid_recommendations svdZero storeC5 (some 1) 3 0 = some (.ok ([42], [(1, [42])]))
    ∧ get_trending_products storeC5 (some 1) 3 = []
    ∧ storeC5.browsing = []
    ∧ storeC5.purchases = []
    ∧ (storeC5.users.find? (fun x => x.user_id == 1)).isSome = true := by decide

/-- C5 witness: the amended statement evaluated for the cold-start user of
`storeC7a` (empty cache). -/
theorem c5_witness :
    get_hybrid_recommendations svdZero storeC7a (some 1) 5 0
      = some (.ok (get_trending_products storeC7a (some 1) 5, storeC7a.cache)) :=
  c5_cold_start_trending svdZero storeC7a (some 1) 5 0
    (Or.inr ⟨1, rfl, Or.inl (by decide), by decide, by decide, by decide⟩)

/-- C7 (amended): when a call for user U runs the full pipeline (cache miss,
existing user with browsing-or-purchase history) and returns `r` with L ≥ 1,
the result is written to the cache and is non-empty, and every consecutive call
for U — against any later store state carrying that cache entry, for any limit,
kernel and fuel — returns the identical list as a pure cache hit, leaving the
cache unchanged.  Anonymous and cold-start results are not cached, so for users
without history the claim fails (counterexample). -/
theorem c7_idempotence (kern : SvdKernel) (st : Store) (u : Int) (limit fuel : Nat)
    (r : List Int) (c2 : List (Int × List Int))
    (hmiss : lookupCache st.cache u = none ∨ lookupCache st.cache u = some [])
    (hhist : (st.browsing.any (fun b => b.user_id == u)
      || st.purchases.any (fun p => p.user_id == u)) = true)
    (hpos : 1 ≤ limit)
    (hres : get_hybrid_recommendations kern st (some u) limit fuel = some (.ok (r, c2))) :
    lookupCache c2 u = some r ∧ r ≠ []
    ∧ ∀ (st2 : Store) (kern2 : SvdKernel) (limit2 fuel2 : Nat),
        lookupCache st2.cache u = some r →
        get_hybrid_recommendations kern2 st2 (some u) limit2 fuel2
          = some (.ok (r, st2.cache)) := by
  have main : lookupCache c2 u = some r ∧ r ≠ [] := by
    simp only [get_hybrid_recommendations] at hres
    split at hres
    · rename_i h0 t0 heq
      rcases hmiss with hc | hc <;> rw [hc] at heq <;> exact absurd heq (by simp)
    · split_ifs at hres with h404 hcold
      · simp at hres
      · rw [Bool.or_eq_true] at hhist
        rcases hhist with hh | hh <;> simp [hh] at hcold
      · split at hres
        · simp at hres
        · split at hres
          · simp at hres
          · rename_i final heq
            simp only [Option.some.injEq, Except.ok.injEq, Prod.mk.injEq] at hres
            obtain ⟨rfl, rfl⟩ := hres
            refine ⟨lookupCache_cacheSet _ _ _, ?_⟩
            have hge := diversityLoop_length_ge limit fuel _ _ final heq
            exact List.ne_nil_of_length_pos (by omega)
  refine ⟨main.1, main.2, ?_⟩
  intro st2 kern2 limit2 fuel2 hl2
  obtain ⟨h0, t0, rfl⟩ : ∃ h0 t0, r = h0 :: t0 := by
    cases r with
    | nil => exact absurd rfl main.2
    | cons h0 t0 => exact ⟨h0, t0, rfl⟩
  simp only [get_hybrid_recommendations]
  split
  · rename_i h1 t1 heq
    rw [heq] at hl2
    simp only [Option.some.injEq, List.cons.injEq] at hl2
    rw [hl2.1, hl2.2]
  · rename_i harm
    exact absurd hl2 (harm h0 t0)

/-- C7 counterexample: user 1 has no history, so the first call's trending
result `[]` is not cached; a purchase by user 2 is then added and the second
consecutive call (cache still empty, within any TTL) returns `[5]` — the two
calls differ even though the claim demands byte-identical results. -/
theorem c7_counterexample :
    get_hybrid_recommendations svdZero storeC7a (some 1) 5 0 = some (.ok ([], []))
    ∧ storeC7b.cache = ([] : List (Int × List Int))
    ∧ storeC7b = { storeC7a with purchases := [mkPurchase 1 2 5 1 95] }
    ∧ get_hybrid_recommendations svdZero storeC7b (some 1) 5 0 = some (.ok ([5], [])) :=
  ⟨by decide, by decide, rfl, by decide⟩

/-- C7 witness: the amended statement evaluated on the full-pipeline run of
`storeC4`; the second call uses a different limit and still serves the cached
list unchanged. -/
theorem c7_witness :
    lookupCache [(1, [1, 4, 2, 3])] 1 = some [1, 4, 2, 3]
    ∧ get_hybrid_recommendations svdZero
        { storeC4 with cache := [(1, [1, 4, 2, 3])] } (some 1) 7 0
      = some (.ok ([1, 4, 2, 3], [(1, [1, 4, 2, 3])])) := by
  have h := c7_idempotence svdZero storeC4 1 4 10 [1, 4, 2, 3] [(1, [1, 4, 2, 3])]
    (Or.inl (by decide)) (by decide) (by decide) (by decide)
  exact ⟨h.1, h.2.2 _ svdZero 7 0 (by decide)⟩

/-- C10: the cache lookup of `recommend` is keyed only by the user id and
happens before any validation: a non-empty cached entry is returned unchanged
for every limit, fuel, kernel and store state — even when the user does not
exist — and the user-not-found error can only be raised when the entry is
absent or empty. -/
theorem c10_cache_before_validation (kern : SvdKernel) (st : Store) (u : Int)
    (limit fuel : Nat) :
    (∀ r, lookupCache st.cache u = some r → r ≠ [] →
      get_hybrid_recommendations kern st (some u) limit fuel = some (.ok (r, st.cache)))
    ∧ (get_hybrid_recommendations kern st (some u) limit fuel = some (.error .http404) →
      lookupCache st.cache u = none ∨ lookupCache st.cache u = some []) := by
  constructor
  · intro r hl hne
    obtain ⟨h0, t0, rfl⟩ : ∃ h0 t0, r = h0 :: t0 := by
      cases r with
      | nil => exact absurd rfl hne
      | cons h0 t0 => exact ⟨h0, t0, rfl⟩
    simp only [get_hybrid_recommendations]
    split
    · rename_i h1 t1 heq
      rw [heq] at hl
      simp only [Option.some.injEq, List.cons.injEq] at hl
      rw [hl.1, hl.2]
    · rename_i harm
      exact absurd hl (harm h0 t0)
  · intro hres
    simp only [get_hybrid_recommendations] at hres
    split at hres
    · simp at hres
    · rename_i harm
      cases hl : lookupCache st.cache u with
      | none => exact Or.inl rfl
      | some l =>
        cases l with
        | nil => exact Or.inr rfl
        | cons h0 t0 => exact absurd hl (harm h0 t0)

/-- C10 witness: user 7 does not exist in the store, yet the cached `[9, 8]` is
returned unchanged for limit 3. -/
theorem c10_witness :
    get_hybrid_recommendations svdZero storeC10 (some 7) 3 0
      = some (.ok ([9, 8], storeC10.cache))
    ∧ storeC10.users = [] := by
  refine ⟨?_, by decide⟩
  exact (c10_cache_before_validation svdZero storeC10 7 3 0).1 [9, 8] (by decide) (by decide)

/-! ## The explanation engine's contract (C6) -/

theorem intercalate_go_length (s : String) :
    ∀ (as : List String) (acc : String), acc.length ≤ (String.intercalate.go acc s as).length
  | [], _ => le_refl _
  | a :: as, acc => by
    have ih := intercalate_go_length s as (acc ++ s ++ a)
    have hlen : acc.length ≤ (acc ++ s ++ a).length := by
      simp only [String.length_append]
      omega
    exact le_trans hlen ih

theorem string_eq_empty_of_length (s : String) (h : s.length = 0) : s = "" := by
  cases s with
  | mk data =>
    cases data with
    | nil => rfl
    | cons c cs => simp [String.length] at h

theorem intercalate_head_ne_empty (h0 : String) (t : List String) (hne : h0 ≠ "") :
    String.intercalate " " (h0 :: t) ≠ "" := by
  have hlen := intercalate_go_length " " t h0
  intro hcontra
  have hred : String.intercalate " " (h0 :: t) = String.intercalate.go h0 " " t := rfl
  rw [hred] at hcontra
  rw [hcontra] at hlen
  exact hne (string_eq_empty_of_length h0 (Nat.le_zero.mp hlen))

theorem intercalate_ne_empty_of_all (l : List String) (hne : l ≠ [])
    (hall : ∀ x ∈ l, x ≠ "") : String.intercalate " " l ≠ "" := by
  cases l with
  | nil => exact absurd rfl hne
  | cons h0 t => exact intercalate_head_ne_empty h0 t (hall h0 (List.mem_cons_self _ _))

theorem explainPersonalParts_all_ne_empty (st : Store) (uid : Option Int) (pid : Int)
    (parts : List String) (h : explainPersonalParts st uid pid = .ok parts) :
    ∀ x ∈ parts, x ≠ "" := by
  cases uid with
  | none =>
    simp only [explainPersonalParts, Except.ok.injEq] at h
    subst h
    simp
  | some u =>
    simp only [explainPersonalParts] at h
    split_ifs at h <;>
      first
      | (simp only [Except.ok.injEq] at h
         subst h
         decide)
      | (split at h
         · simp at h
         · rename_i names hnames
           simp only [Except.ok.injEq] at h
           subst h
           intro x hx
           simp only [List.mem_append, List.mem_singleton, List.not_mem_nil, or_false,
             false_or] at hx
           rcases hx with (rfl | rfl) | rfl
           all_goals first
           | decide
           | (intro hemp
              have hl2 := congrArg String.length hemp
              simp only [String.length_append] at hl2
              have h1 : 0 < ("Recommended because users similar to you (").length := by
                decide
              have h0 : ("" : String).length = 0 := rfl
              omega))

theorem explainContextParts_all_ne_empty (st : Store) (category : String) :
    ∀ x ∈ explainContextParts st category, x ≠ "" := by
  intro x hx
  simp only [explainContextParts] at hx
  split_ifs at hx
  · simp only [List.mem_singleton] at hx
    subst hx
    intro hemp
    have hl2 := congrArg String.length hemp
    simp only [String.length_append] at hl2
    have h1 : 0 < ("Recommended based on current trends: ").length := by decide
    have h0 : ("" : String).length = 0 := rfl
    omega
  · exact absurd hx (List.not_mem_nil x)

/-- C6 (amended): `explain(U, P)` returns not-found exactly when the product
does not exist or a supplied non-zero user id does not resolve — a caller with
user id 0 is treated as anonymous by the source's truthiness test (see the
counterexample); whenever it returns a string, the string is non-empty; and an
anonymous call reads none of the user-specific tables, so only the contextual
fragment (and the generic trending fallback) can contribute. -/
theorem c6_explain_contract (st : Store) (uid : Option Int) (pid : Int) :
    (explain_recommendation st uid pid = .ok none ↔
      (st.products.find? (fun p => p.product_id == pid) = none
        ∨ ∃ u, uid = some u ∧ u ≠ 0
            ∧ st.users.find? (fun x => x.user_id == u) = none))
    ∧ (∀ s, explain_recommendation st uid pid = .ok (some s) → s ≠ "")
    ∧ (∀ (users2 : List UserR) (browsing2 : List BrowsingR) (purchases2 : List PurchaseR)
          (interactions2 : List InteractionR),
        explain_recommendation
          { st with
            users := users2
            browsing := browsing2
            purchases := purchases2
            interactions := interactions2 } none pid
          = explain_recommendation st none pid) := by
  refine ⟨⟨?_, ?_⟩, ?_, ?_⟩
  · intro h
    simp only [explain_recommendation] at h
    split at h
    · rename_i hprod
      exact Or.inl hprod
    · rename_i product hprod
      split_ifs at h with hguard
      · rw [Bool.and_eq_true] at hguard
        obtain ⟨htr, hnone⟩ := hguard
        cases uid with
        | none => simp [uidTruthy] at htr
        | some u =>
          refine Or.inr ⟨u, rfl, by simpa [uidTruthy] using htr, ?_⟩
          have hlk := Option.isNone_iff_eq_none.mp hnone
          simp only [explainUserLookup, if_pos htr] at hlk
          exact hlk
      · split at h
        · simp at h
        · simp at h
  · intro h
    rcases h with hprod | ⟨u, rfl, hu0, hfind⟩
    · simp [explain_recommendation, hprod]
    · have htr : uidTruthy (some u) = true := by simp [uidTruthy, hu0]
      have hlk : explainUserLookup st (some u) = none := by
        simp only [explainUserLookup, if_pos htr]
        exact hfind
      simp only [explain_recommendation]
      split
      · rfl
      · rw [if_pos (by simp [htr, hlk])]
  · intro s h
    simp only [explain_recommendation] at h
    split at h
    · simp at h
    · rename_i product hprod
      split_ifs at h with hguard
      · simp at h
      · split at h
        · simp at h
        · rename_i personalParts hpp
          simp only [Except.ok.injEq, Option.some.injEq] at h
          subst h
          by_cases hparts : (personalParts ++ explainContextParts st product.category).isEmpty
          · rw [if_pos hparts]
            exact intercalate_ne_empty_of_all _ (by simp) (by decide)
          · rw [if_neg hparts]
            refine intercalate_ne_empty_of_all _ (fun hnil => by simp [hnil] at hparts) ?_
            intro x hx
            rcases List.mem_append.mp hx with hx | hx
            · exact explainPersonalParts_all_ne_empty st uid pid personalParts hpp x hx
            · exact explainContextParts_all_ne_empty st product.category x hx
  · intro users2 browsing2 purchases2 interactions2
    rfl

/-- C6 counterexample: user id 0 is supplied and does not resolve (the users
table is empty) while product 1 exists; the claim demands not-found, but the
source's truthiness test (`if user_id:`) treats the falsy id 0 as anonymous and
returns the generic trending sentence. -/
theorem c6_counterexample :
    explain_recommendation storeC6 (some 0) 1
      = .ok (some "Recommended based on trending and popular products.")
    ∧ storeC6.users = []
    ∧ (storeC6.products.find? (fun p => p.product_id == 1)).isSome = true := by
  refine ⟨by decide, rfl, by decide⟩

/-- C6 witness: the amended contract evaluated at `storeC6` for an anonymous
caller and the existing product 1. -/
theorem c6_witness :
    explain_recommendation storeC6 none 1 ≠ .ok none
    ∧ "Recommended based on trending and popular products." ≠ "" := by
  have h := c6_explain_contract storeC6 none 1
  constructor
  · intro hc
    rcases h.1.mp hc with hp | ⟨u, hu, -, -⟩
    · exact absurd hp (by decide)
    · exact absurd hu (by simp)
  · exact h.2.1 _ (by decide)

/-- C9: the content generator computes its similarity from the `rating` pivot,
not from the category-and-tag features the source builds and then discards: the
user of `storeC9` browsed product 1; product 2 has the identical category and
tag text but rating 0, product 3 shares neither category nor tag; the code
nevertheless ranks product 3 (rating-similarity 1) above product 2
(rating-similarity 0), returning `[1, 3, 2]`. -/
theorem c9_similarity_from_rating_not_features :
    get_content_based_recommendations storeC9 (some 1) 3 = .ok [1, 3, 2]
    ∧ (storeC9.products.map (fun p => (p.product_id, p.category, p.tags)))
      = [(1, "books", some "a"), (2, "books", some "a"), (3, "toys", some "z")]
    ∧ ratingSim (ratingOfP storeC9 1) (ratingOfP storeC9 2) = Q.ofInt 0
    ∧ ratingSim (ratingOfP storeC9 1) (ratingOfP storeC9 3) = Q.ofInt 1 := by
  refine ⟨by decide, rfl, by decide, by decide⟩

/-! ## The trending query against its specification (C8) -/

theorem filter_and_eq {α} (f g : α → Bool) (l : List α) :
    l.filter (fun a => f a && g a) = (l.filter f).filter g := by
  induction l with
  | nil => rfl
  | cons x xs ih => by_cases hf : f x <;> by_cases hg : g x <;> simp [hf, hg, ih]

theorem filter_swap {α} (f g : α → Bool) (l : List α) :
    (l.filter f).filter g = (l.filter g).filter f := by
  rw [← filter_and_eq, ← filter_and_eq]
  exact List.filter_congr (fun a _ => by cases hf : f a <;> cases hg : g a <;> simp [hf, hg])

theorem map_pid_filter (q : Int → Bool) (l : List PurchaseR) :
    (l.filter (fun p => q p.product_id)).map (fun p => p.product_id)
      = (l.map (fun p => p.product_id)).filter q := by
  induction l with
  | nil => rfl
  | cons x xs ih => by_cases hq : q x.product_id <;> simp [hq, ih]

theorem dedupF_filter (q : Int → Bool) (l : List Int) :
    dedupF (l.filter q) = (dedupF l).filter q := by
  induction l with
  | nil => rfl
  | cons x xs ih =>
    by_cases hq : q x
    · simp only [List.filter_cons, hq, if_true, dedupF, ih]
      rw [filter_swap]
    · rw [List.filter_cons, if_neg (by simp [hq])]
      rw [ih, dedupF, List.filter_cons, if_neg (by simp [hq])]
      symm
      rw [filter_swap]
      refine List.filter_eq_self.mpr (fun y hy => ?_)
      rcases List.mem_filter.mp hy with ⟨-, hqy⟩
      have : y ≠ x := fun hyx => by rw [hyx] at hqy; exact hq (by simpa using hqy)
      simp [this]

theorem countP_filter_eq {α} (p q : α → Bool) (l : List α) :
    (l.filter q).countP p = l.countP (fun a => p a && q a) := by
  induction l with
  | nil => rfl
  | cons x xs ih =>
    by_cases hq : q x <;> by_cases hp : p x <;>
      simp [hq, hp, List.countP_cons, List.filter_cons, ih]

theorem lexB_eq_false_iff (cnt : Int → Nat) (a b : Int) :
    ((decide (cnt a < cnt b) || ((cnt b == cnt a) && decide (b < a))) = false)
      ↔ (cnt b ≤ cnt a ∧ (cnt a = cnt b → a ≤ b)) := by
  rw [Bool.or_eq_false_iff, Bool.and_eq_false_iff]
  simp only [decide_eq_false_iff_not, beq_eq_false_iff_ne, ne_eq, Nat.not_lt, Int.not_lt]
  constructor
  · rintro ⟨h1, h2 | h2⟩
    · exact ⟨h1, fun he => absurd he.symm h2⟩
    · exact ⟨h1, fun _ => h2⟩
  · rintro ⟨h1, h2⟩
    by_cases he : cnt b = cnt a
    · exact ⟨h1, Or.inr (h2 he.symm)⟩
    · exact ⟨h1, Or.inl he⟩

theorem sortS_spec_sorted_lexQ (cnt : Int → Nat) (l : List Int) :
    (sortS (fun a b => decide (cnt b < cnt a) || ((cnt a == cnt b) && decide (a < b))) l).Sorted
      (fun a b => cnt b ≤ cnt a ∧ (cnt a = cnt b → a ≤ b)) := by
  haveI : IsTrans Int (fun a b : Int =>
      ((decide (cnt a < cnt b) || ((cnt b == cnt a) && decide (b < a))) = false)) := by
    refine ⟨fun a b c hab hbc => ?_⟩
    rw [lexB_eq_false_iff] at hab hbc ⊢
    obtain ⟨h1, h2⟩ := hab
    obtain ⟨h3, h4⟩ := hbc
    refine ⟨le_trans h3 h1, fun he => ?_⟩
    have e1 : cnt a = cnt b := by omega
    have e2 : cnt b = cnt c := by omega
    exact le_trans (h2 e1) (h4 e2)
  haveI : IsTotal Int (fun a b : Int =>
      ((decide (cnt a < cnt b) || ((cnt b == cnt a) && decide (b < a))) = false)) := by
    refine ⟨fun a b => ?_⟩
    rw [lexB_eq_false_iff, lexB_eq_false_iff]
    rcases Nat.lt_trichotomy (cnt a) (cnt b) with h | h | h
    · exact Or.inr ⟨le_of_lt h, fun he => absurd he (by omega)⟩
    · rcases Int.le_total a b with hle | hle
      · exact Or.inl ⟨by omega, fun _ => hle⟩
      · exact Or.inr ⟨by omega, fun _ => hle⟩
    · exact Or.inl ⟨le_of_lt h, fun he => absurd he (by omega)⟩
  have h := List.sorted_insertionSort (fun a b : Int =>
    ((decide (cnt a < cnt b) || ((cnt b == cnt a) && decide (b < a))) = false)) l
  exact h.imp (fun hab => (lexB_eq_false_iff cnt _ _).mp hab)

theorem count_filter_notin_eq (w : List PurchaseR) (c : List Int) (x : Int)
    (hx : (c.contains x) = false) :
    List.countP (fun p => p.product_id == x)
        (w.filter (fun p => !(c.contains p.product_id)))
      = List.countP (fun p => p.product_id == x) w := by
  rw [countP_filter_eq]
  refine List.countP_congr (fun a _ => ?_)
  constructor
  · intro hpa
    exact (Bool.and_eq_true _ _).mp hpa |>.1
  · intro hqa
    have hpe : a.product_id = x := by simpa using hqa
    rw [Bool.and_eq_true]
    refine ⟨hqa, ?_⟩
    rw [hpe, hx]
    rfl

theorem sorted_desc_perm_eq (cnt : Int → Nat) :
    ∀ (l1 l2 : List Int), List.Perm l1 l2 →
    l1.Sorted (fun a b => cnt b ≤ cnt a) → l2.Sorted (fun a b => cnt b ≤ cnt a) →
    (∀ a ∈ l1, ∀ b ∈ l1, cnt a = cnt b → a = b) → l1 = l2
  | [], _, hp, _, _, _ => (List.Perm.eq_nil hp.symm).symm
  | x :: t1, [], hp, _, _, _ => absurd (List.Perm.eq_nil hp) (by simp)
  | x :: t1, y :: t2, hp, hs1, hs2, hinj => by
    have hxy : x = y := by
      by_contra hne
      have hxin : x ∈ y :: t2 := hp.mem_iff.mp (List.mem_cons_self x t1)
      have hyin : y ∈ x :: t1 := hp.mem_iff.mpr (List.mem_cons_self y t2)
      have hx2 : x ∈ t2 := by
        rcases List.mem_cons.mp hxin with h | h
        · exact absurd h hne
        · exact h
      have hy1 : y ∈ t1 := by
        rcases List.mem_cons.mp hyin with h | h
        · exact absurd h.symm hne
        · exact h
      have h1 : cnt y ≤ cnt x := (List.sorted_cons.mp hs1).1 y hy1
      have h2 : cnt x ≤ cnt y := (List.sorted_cons.mp hs2).1 x hx2
      exact hne (hinj x (List.mem_cons_self x t1) y (List.mem_cons_of_mem x hy1)
        (Nat.le_antisymm h2 h1))
    subst hxy
    have hp2 : List.Perm t1 t2 := hp.cons_inv
    have ht := sorted_desc_perm_eq cnt t1 t2 hp2 (List.sorted_cons.mp hs1).2
      (List.sorted_cons.mp hs2).2
      (fun a ha b hb hab =>
        hinj a (List.mem_cons_of_mem x ha) b (List.mem_cons_of_mem x hb) hab)
    rw [ht]

theorem trendingSpecFull_sorted (st : Store) (uid : Option Int) :
    (trendingSpecFull st uid).Sorted
      (fun a b => trendingSpecCount st b ≤ trendingSpecCount st a) := by
  have h := sortS_spec_sorted_lexQ (fun x => trendingSpecCount st x) (trendingSpecCands st uid)
  exact h.imp (fun hab => hab.1)

theorem trendingFallbackSpec_take (st : Store) (uid : Option Int) (limit : Nat) :
    trendingFallbackSpec st uid limit = (trendingSpecFull st uid).take limit := rfl

/-- C8 counterexample: on `storeC8` products 1 and 2 tie at one windowed
purchase each.  The source query orders by count descending with no secondary
sort key, so `[2, 1]` is among the pre-LIMIT row orders the database may
return, while the claimed ascending-id tie-break demands `[1, 2]`. -/
theorem c8_counterexample :
    trendingQueryOrders storeC8 none [2, 1]
    ∧ trendingSpecCount storeC8 1 = 1
    ∧ trendingSpecCount storeC8 2 = 1
    ∧ trendingFallbackSpec storeC8 none 2 = [1, 2]
    ∧ ([2, 1] : List Int) ≠ [1, 2] :=
  ⟨⟨by decide, by decide⟩, by decide, by decide, by decide, by decide⟩

/-- C8 (corrected): for every row order the issued trending query may return,
the window, the grouping count, the exclusion of the caller's interacted
products and the descending order by count all hold — the returned keys are
exactly the spec's candidates, sorted by descending trailing-30-day count —
and the spec's full ordering (ties by ascending product id) together with its
`limit` truncation is forced whenever no two candidate counts tie; the
ascending-id tie-break itself is not guaranteed by the code, which issues no
secondary sort key. -/
theorem c8_trending_desc_up_to_ties (st : Store) (uid : Option Int) (full : List Int)
    (hc : trendingQueryOrders st uid full) :
    full.Perm (trendingSpecCands st uid)
    ∧ full.Sorted (fun a b => trendingSpecCount st b ≤ trendingSpecCount st a)
    ∧ ((∀ a ∈ full, ∀ b ∈ full, trendingSpecCount st a = trendingSpecCount st b → a = b) →
        ∀ limit, full.take limit = trendingFallbackSpec st uid limit) := by
  obtain ⟨hperm0, hsort0⟩ := hc
  rw [filter_and_eq] at hperm0 hsort0
  rw [map_pid_filter
      (fun x => !((get_interacted_product_ids st uid).contains x)),
    dedupF_filter] at hperm0
  have hperm : full.Perm (trendingSpecCands st uid) := hperm0
  have hmemc : ∀ x ∈ full,
      ((get_interacted_product_ids st uid).contains x) = false := by
    intro x hx
    have hxc : x ∈ trendingSpecCands st uid := hperm.mem_iff.mp hx
    unfold trendingSpecCands at hxc
    have hb := (List.mem_filter.mp hxc).2
    simpa using hb
  have hsort : full.Sorted (fun a b => trendingSpecCount st b ≤ trendingSpecCount st a) := by
    refine List.Pairwise.imp_of_mem ?_ hsort0
    intro a b ha hb hr
    rw [count_filter_notin_eq _ _ b (hmemc b hb),
      count_filter_notin_eq _ _ a (hmemc a ha)] at hr
    exact hr
  refine ⟨hperm, hsort, fun hinj limit => ?_⟩
  have hfull : full = trendingSpecFull st uid :=
    sorted_desc_perm_eq (fun x => trendingSpecCount st x) full (trendingSpecFull st uid)
      (hperm.trans (sortS_perm _ (trendingSpecCands st uid)).symm) hsort
      (trendingSpecFull_sorted st uid) hinj
  rw [hfull, trendingFallbackSpec_take]

/-- Witness for C8: on `storeC8w` the trending counts are distinct (2 and 1),
the count-descending query order `[1, 2]` is checked concretely, and the
theorem then forces the exact specification output. -/
theorem c8_witness :
    trendingQueryOrders storeC8w none [1, 2]
    ∧ ([1, 2] : List Int).take 2 = trendingFallbackSpec storeC8w none 2 :=
  have hc : trendingQueryOrders storeC8w none [1, 2] := ⟨by decide, by decide⟩
  ⟨hc, (c8_trending_desc_up_to_ties storeC8w none [1, 2] hc).2.2 (by decide) 2⟩
